import Mathlib

/-!
Verification of the Markdown blog's post repository (`src/lib/post.ts`)
against its natural-language specification.

The filesystem is modelled as an explicit state value threaded through each
operation: `readdir` and `readFile` are the only primitives the code calls,
and both are queries that leave the state unchanged.  Strings are processed
through their underlying character lists with structural recursion, so every
definition is executable by the kernel.
-/

namespace Blog

/-- Filesystem state: the directory listing of the posts folder, and the
readable content of each absolute path (`none` models a missing file or any
failed read, since `readFile(...).catch(() => null)` collapses all failures). -/
structure FS where
  entries : List String
  files : String → Option String

/-- Model of `process.cwd()`: a fixed process working directory. -/
def cwd : String := "/app"

/-- Model of `path.resolve(process.cwd(), '_posts')` from `post.ts`. -/
def POSTS_FOLDER : String := cwd ++ "/_posts"

/-- The template-literal path built by `getPostContent`. -/
def postPath (slug : String) : String :=
  POSTS_FOLDER ++ "/" ++ slug ++ ".md"

/-- Model of `fs.promises.readdir(POSTS_FOLDER)` as a state-passing query. -/
def readdirFS (fs : FS) : List String × FS :=
  (fs.entries, fs)

/-- Model of `fs.promises.readFile(p, 'utf-8').catch(() => null)`. -/
def readFileFS (p : String) (fs : FS) : Option String × FS :=
  (fs.files p, fs)

/-- If `pat` is a leading run of `l`, return the rest of `l`; otherwise `none`. -/
def dropMatch : List Char → List Char → Option (List Char)
  | [], l => some l
  | _ :: _, [] => none
  | p :: ps, c :: cs => if p = c then dropMatch ps cs else none

/-- JavaScript `String.prototype.replace` with a plain-string pattern and
empty replacement: remove the first occurrence of `pat`, if any. -/
def replList (pat : List Char) : List Char → List Char
  | [] => []
  | c :: cs =>
    match dropMatch pat (c :: cs) with
    | some rest => rest
    | none => c :: replList pat cs

/-- The character list of the pattern `'.md'` used in `getPostSlugs`. -/
def mdPat : List Char := ['.', 'm', 'd']

/-- Model of `fileName.replace('.md', '')`: only the first occurrence of the
substring `.md` is removed, wherever it occurs, and names without `.md` pass
through unchanged. -/
def stripMd (fileName : String) : String :=
  ⟨replList mdPat fileName.data⟩

/-- `getPostSlugs` in state-passing form: `readdir` then map `replace`. -/
def getPostSlugsM (fs : FS) : List String × FS :=
  let (files, fs1) := readdirFS fs
  (files.map stripMd, fs1)

/-- The value returned by `getPostSlugs`. -/
def getPostSlugs (fs : FS) : List String :=
  (getPostSlugsM fs).1

/-! ### Front-matter splitter (gray-matter)

`matter` is a third-party dependency (gray-matter), not part of `src/`.
Model: a file starting with a `---` line has its following lines up to the
closing `---` line parsed as a YAML block mapping of `key: value` lines; the
remainder is the content.  gray-matter's YAML engine (js-yaml) throws a
`YAMLException` when a non-empty line inside a block mapping is not a
`key: value` entry; that throw is modelled as `Except.error`.  A block whose
lines are all plain scalars parses as non-mapping data, modelled as an empty
mapping.  A file not starting with a fence yields empty data and the whole
input as content. -/

/-- Split a character list at every occurrence of a separator character. -/
def splitOnC (sep : Char) : List Char → List (List Char)
  | [] => [[]]
  | c :: cs =>
    if c = sep then [] :: splitOnC sep cs
    else
      match splitOnC sep cs with
      | [] => [[c]]
      | l :: ls => (c :: l) :: ls

/-- Rejoin pieces with a separator character between them. -/
def joinWith (sep : Char) : List (List Char) → List Char
  | [] => []
  | [l] => l
  | l :: ls => l ++ sep :: joinWith sep ls

/-- Split a character list at newline characters. -/
def splitLines : List Char → List (List Char) :=
  splitOnC '\n'

/-- Rejoin lines with newline characters. -/
def joinLines : List (List Char) → List Char :=
  joinWith '\n'

/-- Drop leading and trailing spaces of a line. -/
def trimChars (l : List Char) : List Char :=
  ((l.dropWhile (· = ' ')).reverse.dropWhile (· = ' ')).reverse

/-- The `---` delimiter line of a front-matter fence. -/
def fenceLine : List Char := ['-', '-', '-']

/-- Split the line list at the first closing `---` line, if present. -/
def splitAtClose : List (List Char) → Option (List (List Char) × List (List Char))
  | [] => none
  | l :: rest =>
    if l = fenceLine then some ([], rest)
    else
      match splitAtClose rest with
      | some (ys, zs) => some (l :: ys, zs)
      | none => none

/-- Parse one `key: value` line of the front-matter block. -/
def parseKV (l : List Char) : String × String :=
  (⟨trimChars (l.takeWhile (· ≠ ':'))⟩, ⟨trimChars ((l.dropWhile (· ≠ ':')).drop 1)⟩)

/-- Parse the YAML block between the fences; `Except.error` models the
`YAMLException` js-yaml throws on a malformed block mapping. -/
def parseYamlBlock (ls : List (List Char)) : Except String (List (String × String)) :=
  let ne := ls.filter (fun l => trimChars l ≠ [])
  if ne.all (fun l => l.contains ':') then .ok (ne.map parseKV)
  else if ne.all (fun l => ¬ l.contains ':') then .ok []
  else .error "YAMLException: can not read a block mapping entry"

/-- Result of the front-matter splitter: the parsed key/value block and the
body text after it. -/
structure GrayMatter where
  data : List (String × String)
  content : String
deriving DecidableEq, Repr

/-- Model of the external `matter` function (gray-matter). -/
def matter (s : String) : Except String GrayMatter :=
  match dropMatch ['-', '-', '-', '\n'] s.data with
  | none => .ok ⟨[], s⟩
  | some rest =>
    let ls := splitLines rest
    match splitAtClose ls with
    | none => (parseYamlBlock ls).map (fun d => ⟨d, ""⟩)
    | some (block, body) => (parseYamlBlock block).map (fun d => ⟨d, ⟨joinLines body⟩⟩)

/-! ### Post repository operations -/

/-- A JavaScript object as an ordered list of key/value insertions. -/
def Obj : Type := List (String × String)

instance : DecidableEq Obj :=
  inferInstanceAs (DecidableEq (List (String × String)))

/-- Property lookup on a JavaScript object: a later insertion of the same key
overwrites an earlier one, as in object-literal spread. -/
def objGet : List (String × String) → String → Option String
  | [], _ => none
  | (k, v) :: rest, key =>
    match objGet rest key with
    | some v' => some v'
    | none => if k = key then some v else none

/-- Model of the object literal `{ slug, ...parsed.data }`: the `slug`
property is inserted first, then every front-matter entry is spread over it. -/
def mkMetaObj (slug : String) (gm : GrayMatter) : Obj :=
  ("slug", slug) :: gm.data

/-- `getPostContent` in state-passing form: one `readFile` of the
concatenated path, failures collapsed to `none`. -/
def getPostContentM (slug : String) (fs : FS) : Option String × FS :=
  readFileFS (postPath slug) fs

/-- The value returned by `getPostContent`. -/
def getPostContent (fs : FS) (slug : String) : Option String :=
  (getPostContentM slug fs).1

/-- `parseContent`: read the file, then `content ? matter(content) : null`.
JavaScript truthiness makes the empty string act like a failed read.  A
`matter` throw is not caught here and propagates as `Except.error`. -/
def parseContentM (slug : String) (fs : FS) : Except String (Option GrayMatter) × FS :=
  let (c, fs1) := getPostContentM slug fs
  (match c with
   | none => .ok none
   | some s => if s.data = [] then .ok none else (matter s).map some, fs1)

/-- `getPostMeta`: parse the file and build `{ slug, ...parsed.data }`;
a `null` parse yields `undefined`, modelled as `none`. -/
def getPostMetaM (slug : String) (fs : FS) : Except String (Option Obj) × FS :=
  let (r, fs1) := parseContentM slug fs
  (r.map (Option.map (mkMetaObj slug)), fs1)

/-- The value produced by `getPostMeta` (error models a promise rejection). -/
def getPostMeta (fs : FS) (slug : String) : Except String (Option Obj) :=
  (getPostMetaM slug fs).1

/-- Model of `Promise.all(slugs.map(getPostMeta))`: every per-slug read is
issued, and the join rejects if any single promise rejects. -/
def mapMetasM : List String → FS → Except String (List (Option Obj)) × FS
  | [], fs => (.ok [], fs)
  | s :: rest, fs =>
    match getPostMetaM s fs with
    | (.error e, fs1) => (.error e, fs1)
    | (.ok m, fs1) =>
      match mapMetasM rest fs1 with
      | (.error e, fs2) => (.error e, fs2)
      | (.ok ms, fs2) => (.ok (m :: ms), fs2)

/-- `getPostList`: slugs, fan-out of `getPostMeta`, then
`.filter(post => post !== undefined)`. -/
def getPostListM (fs : FS) : Except String (List Obj) × FS :=
  let (slugs, fs1) := getPostSlugsM fs
  match mapMetasM slugs fs1 with
  | (.error e, fs2) => (.error e, fs2)
  | (.ok ms, fs2) => (.ok (ms.filterMap id), fs2)

/-- The value produced by `getPostList`. -/
def getPostList (fs : FS) : Except String (List Obj) :=
  (getPostListM fs).1

/-! ### Markdown-to-HTML converter (unified pipeline)

The converter is wired from five external plugins.  Their internal transforms
live in third-party libraries, so each stage's denotation is a parameter; the
repository code fixes only which stages run and in which order. -/

/-- The five plugins `getPost` installs, named after the imports in
`post.ts`. -/
inductive Stage
  | remarkParse
  | remarkFrontmatter
  | remarkGfm
  | remarkRehype
  | rehypeStringify
deriving DecidableEq, Repr

/-- A unified processor: the ordered list of installed plugins. -/
structure Processor where
  stages : List Stage
deriving DecidableEq, Repr

/-- Model of `unified()`: a fresh processor with no plugins. -/
def unified : Processor := ⟨[]⟩

/-- Model of `.use(plugin)`: append one plugin to the pipeline. -/
def Processor.use (p : Processor) (s : Stage) : Processor :=
  ⟨p.stages ++ [s]⟩

/-- Model of `String(await processor.process(input))`: run each installed
stage over the text in installation order, given a denotation for the
external stage transforms. -/
def Processor.process (p : Processor) (denote : Stage → String → String)
    (input : String) : String :=
  p.stages.foldl (fun d s => denote s d) input

/-- The processor built inside `getPost`:
`unified().use(remarkParse).use(remarkFrontmatter).use(remarkGfm).use(remarkRehype).use(rehypeStringify)`. -/
def getPostProcessor : Processor :=
  ((((unified.use .remarkParse).use .remarkFrontmatter).use
      .remarkGfm).use .remarkRehype).use .rehypeStringify

/-- How `getPost` can finish abnormally: the `notFound()` framework signal,
or an uncaught error from a lower layer. -/
inductive PostError
  | notFound
  | raw (msg : String)
deriving DecidableEq, Repr

/-- The value `getPost` resolves with: the rendered HTML and the front-matter
data. -/
structure PostContent where
  postHTML : String
  postMeta : List (String × String)
deriving DecidableEq, Repr

/-- `getPost` in state-passing form: parse the file; `notFound()` on a `null`
parse; otherwise run the body through the pipeline and pair it with the
front-matter data.  An uncaught `matter` error passes through as `.raw`. -/
def getPostM (denote : Stage → String → String) (slug : String) (fs : FS) :
    Except PostError PostContent × FS :=
  let (r, fs1) := parseContentM slug fs
  (match r with
   | .error e => .error (.raw e)
   | .ok none => .error .notFound
   | .ok (some parsed) =>
     .ok ⟨getPostProcessor.process denote parsed.content, parsed.data⟩, fs1)

/-- The value produced by `getPost`. -/
def getPost (denote : Stage → String → String) (fs : FS) (slug : String) :
    Except PostError PostContent :=
  (getPostM denote slug fs).1

/-! ### Derived observations used by the theorems -/

instance {e a : Type} [DecidableEq e] [DecidableEq a] : DecidableEq (Except e a)
  | .error x, .error y =>
    if h : x = y then .isTrue (by rw [h]) else .isFalse (by simp [h])
  | .error _, .ok _ => .isFalse (by simp)
  | .ok _, .error _ => .isFalse (by simp)
  | .ok x, .ok y =>
    if h : x = y then .isTrue (by rw [h]) else .isFalse (by simp [h])

/-- The metadata `getPostMeta` yields for a slug when no error occurs:
`some` object on success, `none` when the post counts as absent. -/
def metaOption (fs : FS) (s : String) : Option Obj :=
  match getPostMeta fs s with
  | .ok (some o) => some o
  | _ => none

/-- The joined fan-out result inside `getPostList`, before filtering. -/
def metasOf (fs : FS) : Except String (List (Option Obj)) :=
  (mapMetasM (getPostSlugs fs) fs).1

/-- Whether the file stored for a slug, if readable, has front matter the
splitter accepts. -/
def readableParses (fs : FS) (s : String) : Bool :=
  match fs.files (postPath s) with
  | some c => (matter c).isOk
  | none => true

/-- The `slug` property of each object in a listing result. -/
def slugFields (r : Except String (List Obj)) : List (Option String) :=
  match r with
  | .ok l => l.map (fun o => objGet o "slug")
  | .error _ => []

/-- Resolve `.` and `..` segments of an absolute path, to observe which file
a concatenated path actually addresses. -/
def normalizePath (p : String) : String :=
  let comps := (splitOnC '/' p.data).filter
    (fun c => !(c == []) && !(c == ['.']))
  let stack := comps.foldl
    (fun acc c => if c == ['.', '.'] then acc.dropLast else acc ++ [c]) []
  ⟨'/' :: joinWith '/' stack⟩

/-- Whether the first string is a leading run of the second. -/
def strHasPrefix (p s : String) : Bool :=
  (dropMatch p.data s.data).isSome

/-- A trivial denotation of the external pipeline stages, used to instantiate
theorems that hold for every denotation. -/
def idDenote : Stage → String → String := fun _ s => s

/-! ### Concrete source-store states used as witnesses and counterexamples -/

/-- A store whose directory holds `a.md` and an extensionless entry `a`;
only `a.md` is readable. -/
def fsDup : FS :=
  ⟨["a.md", "a"], fun p => if p = postPath "a" then some "hello world" else none⟩

/-- A store with one well-formed post and one file whose front-matter block
mixes a mapping line with a bare line, which the YAML engine rejects. -/
def fsBad : FS :=
  ⟨["good.md", "bad.md"],
   fun p =>
     if p = postPath "good" then some "---\ntitle: a\n---\nhello"
     else if p = postPath "bad" then some "---\ntitle: x\nbadline\n---\noops"
     else none⟩

/-- A store listing two posts of which only one is readable: `missing.md`
appears in the directory but every read of it fails. -/
def fsPartial : FS :=
  ⟨["a.md", "missing.md"],
   fun p => if p = postPath "a" then some "---\ntitle: a\n---\nhello" else none⟩

/-- A store with one file whose front matter declares its own `slug` key. -/
def fsSlugKey : FS :=
  ⟨["a.md"],
   fun p => if p = postPath "a" then some "---\nslug: other\n---\nbody" else none⟩

/-! ### Helper lemmas -/

lemma getPostMeta_unfold (fs : FS) (s : String) :
    getPostMeta fs s =
      match fs.files (postPath s) with
      | none => .ok none
      | some c =>
        if c.data = [] then .ok none
        else (matter c).map (fun gm => some (mkMetaObj s gm)) := by
  unfold getPostMeta getPostMetaM parseContentM getPostContentM readFileFS
  cases hc : fs.files (postPath s) with
  | none => rfl
  | some c =>
    by_cases he : c.data = []
    · simp [he, Except.map]
    · cases hm : matter c <;> simp [he, hm, Except.map, Option.map]

lemma getPostMetaM_eq (s : String) (fs : FS) :
    getPostMetaM s fs = (getPostMeta fs s, fs) := rfl

/-- The pure residue of the `Promise.all` fan-out: the joined value, slug by
slug, with the first rejection winning. -/
def metasAux : List String → FS → Except String (List (Option Obj))
  | [], _ => .ok []
  | s :: rest, fs =>
    match getPostMeta fs s with
    | .error e => .error e
    | .ok m =>
      match metasAux rest fs with
      | .error e => .error e
      | .ok ms => .ok (m :: ms)

lemma mapMetasM_eq (l : List String) (fs : FS) :
    mapMetasM l fs = (metasAux l fs, fs) := by
  induction l with
  | nil => rfl
  | cons s rest ih =>
    cases hx : getPostMeta fs s with
    | error e => simp [mapMetasM, getPostMetaM_eq, hx, metasAux]
    | ok m =>
      cases hy : metasAux rest fs <;>
        simp [mapMetasM, getPostMetaM_eq, hx, ih, hy, metasAux]

lemma getPostList_eq (fs : FS) :
    getPostList fs =
      match metasAux (getPostSlugs fs) fs with
      | .error e => .error e
      | .ok ms => .ok (ms.filterMap id) := by
  show (match mapMetasM (getPostSlugs fs) fs with
        | (.error e, fs2) => (Except.error e, fs2)
        | (.ok ms, fs2) => (.ok (ms.filterMap id), fs2)).1 = _
  rw [mapMetasM_eq]
  cases metasAux (getPostSlugs fs) fs <;> rfl

lemma metasOf_eq (fs : FS) : metasOf fs = metasAux (getPostSlugs fs) fs := by
  unfold metasOf
  rw [mapMetasM_eq]

lemma dropMatch_append (p r : List Char) : dropMatch p (p ++ r) = some r := by
  induction p with
  | nil => rfl
  | cons c cs ih => simp [dropMatch, ih]

lemma replList_strip (n : List Char) (h : ∀ c ∈ n, c ≠ '.') :
    replList mdPat (n ++ mdPat) = n := by
  induction n with
  | nil => rfl
  | cons c cs ih =>
    have hc : c ≠ '.' := h c (List.mem_cons_self c cs)
    have hd : dropMatch mdPat (c :: (cs ++ mdPat)) = none := by
      have : ('.' = c) = False := by
        simp only [eq_iff_iff, iff_false]
        exact fun hx => hc hx.symm
      simp [mdPat, dropMatch, this]
    show replList mdPat (c :: (cs ++ mdPat)) = c :: cs
    simp only [replList, hd]
    exact congrArg (c :: ·) (ih (fun x hx => h x (List.mem_cons_of_mem c hx)))

lemma stripMd_append (n : String) (h : ∀ c ∈ n.data, c ≠ '.') :
    stripMd (n ++ ".md") = n := by
  have hdata : (n ++ ".md").data = n.data ++ mdPat := by
    cases n
    rfl
  unfold stripMd
  rw [hdata, replList_strip n.data h]

lemma getPostMeta_eq_metaOption (fs : FS) (s : String)
    (h : readableParses fs s = true) :
    getPostMeta fs s = .ok (metaOption fs s) := by
  cases hg : getPostMeta fs s with
  | ok o =>
    unfold metaOption
    rw [hg]
    cases o <;> rfl
  | error e =>
    exfalso
    unfold readableParses at h
    rw [getPostMeta_unfold] at hg
    cases hc : fs.files (postPath s) with
    | none => rw [hc] at hg; cases hg
    | some c =>
      rw [hc] at hg h
      have h' : (matter c).isOk = true := h
      have hg' : (if c.data = [] then Except.ok none
          else Except.map (fun gm => some (mkMetaObj s gm)) (matter c)) =
          Except.error e := hg
      by_cases he : c.data = []
      · rw [if_pos he] at hg'; cases hg'
      · rw [if_neg he] at hg'
        cases hm : matter c with
        | ok gm => rw [hm] at hg'; simp [Except.map] at hg'
        | error e' => rw [hm] at h'; exact Bool.noConfusion h'

lemma metasAux_ok (l : List String) (fs : FS)
    (h : ∀ s ∈ l, readableParses fs s = true) :
    metasAux l fs = .ok (l.map (metaOption fs)) := by
  induction l with
  | nil => rfl
  | cons s rest ih =>
    have h1 := getPostMeta_eq_metaOption fs s (h s (List.mem_cons_self s rest))
    have h2 := ih (fun x hx => h x (List.mem_cons_of_mem s hx))
    simp [metasAux, h1, h2]

lemma metasAux_length (l : List String) (fs : FS) (ms : List (Option Obj))
    (h : metasAux l fs = .ok ms) : ms.length = l.length := by
  induction l generalizing ms with
  | nil => cases h; rfl
  | cons s rest ih =>
    unfold metasAux at h
    cases hx : getPostMeta fs s with
    | error e => rw [hx] at h; cases h
    | ok m =>
      rw [hx] at h
      cases hy : metasAux rest fs with
      | error e => rw [hy] at h; cases h
      | ok ms' =>
        rw [hy] at h
        cases h
        simp [ih ms' hy]

lemma metasAux_mem (l : List String) (fs : FS) (ms : List (Option Obj))
    (h : metasAux l fs = .ok ms) :
    ∀ m ∈ ms, ∃ s ∈ l, getPostMeta fs s = .ok m := by
  induction l generalizing ms with
  | nil => cases h; intro m hm; cases hm
  | cons s rest ih =>
    unfold metasAux at h
    cases hx : getPostMeta fs s with
    | error e => rw [hx] at h; cases h
    | ok m0 =>
      rw [hx] at h
      cases hy : metasAux rest fs with
      | error e => rw [hy] at h; cases h
      | ok ms' =>
        rw [hy] at h
        cases h
        intro m hm
        rcases List.mem_cons.mp hm with hm | hm
        · exact ⟨s, List.mem_cons_self s rest, hm ▸ hx⟩
        · rcases ih ms' hy m hm with ⟨s', hs', he'⟩
          exact ⟨s', List.mem_cons_of_mem s hs', he'⟩

lemma filterMap_id_add_countP (l : List (Option Obj)) :
    (l.filterMap id).length + l.countP (fun o => o.isNone) = l.length := by
  induction l with
  | nil => rfl
  | cons o rest ih =>
    cases o <;> simp [List.filterMap_cons, List.countP_cons] <;> omega

lemma getPostListM_snd (fs : FS) : (getPostListM fs).2 = fs := by
  show (match mapMetasM (getPostSlugs fs) fs with
        | (.error e, fs2) => (Except.error e, fs2)
        | (.ok ms, fs2) => (.ok (ms.filterMap id), fs2)).2 = _
  rw [mapMetasM_eq]
  cases metasAux (getPostSlugs fs) fs <;> rfl

/-! ### Claims -/

/-- C1 (counterexample): the claim that `getPostList` never propagates a raw
parse error is false.  In the store `fsBad`, one file's front-matter block is
malformed; the resulting `YAMLException` is not caught anywhere, so the whole
listing aborts with the raw error instead of excluding that one file. -/
theorem getPostList_parse_error_escapes :
    getPostList fsBad =
      Except.error "YAMLException: can not read a block mapping entry" := by
  decide

/-- C1 (amended): only failures while *reading* a file are caught and
normalized during listing — `getPostContent`'s catch turns them into `null`,
and `getPostList` excludes those slugs.  Whenever every readable file's front
matter parses, the listing succeeds and equals the per-slug metadata with the
absent ones filtered out; a missing or unreadable file never aborts it.  A
front-matter parse failure, by contrast, is not caught (see the
counterexample). -/
theorem getPostList_read_failures_excluded (fs : FS)
    (h : ∀ s ∈ getPostSlugs fs, readableParses fs s = true) :
    getPostList fs = .ok ((getPostSlugs fs).filterMap (metaOption fs)) := by
  rw [getPostList_eq, metasAux_ok _ _ h]
  show Except.ok (((getPostSlugs fs).map (metaOption fs)).filterMap id) = _
  rw [List.filterMap_map]
  rfl

theorem getPostList_read_failures_excluded_witness :
    getPostList fsPartial = .ok [[("slug", "a"), ("title", "a")]] :=
  (getPostList_read_failures_excluded fsPartial (by decide)).trans (by decide)

/-- C2 (counterexample): `getPostSlugs` is not the duplicate-free set of
`<name>` values of the `<name>.md` entries.  With directory entries
`["a.md", "a"]`, the non-`.md` entry `a` contributes itself, and the result
`["a", "a"]` contains a duplicate. -/
theorem getPostSlugs_counterexample :
    getPostSlugs fsDup = ["a", "a"] ∧ ¬ (getPostSlugs fsDup).Nodup := by
  exact ⟨by decide, by decide⟩

/-- C2 (amended): `replace('.md', '')` removes only the first occurrence of
the substring `.md` and non-`.md` entries pass through, so the claim holds
only for well-formed listings: when every entry is `<name>.md` with `<name>`
free of `.` characters and the names are pairwise distinct, `getPostSlugs`
returns exactly those names, in order and without duplicates. -/
theorem getPostSlugs_wellformed (names : List String) (files : String → Option String)
    (h1 : ∀ n ∈ names, ∀ c ∈ n.data, c ≠ '.') (h2 : names.Nodup) :
    getPostSlugs ⟨names.map (fun n => n ++ ".md"), files⟩ = names ∧
    (getPostSlugs ⟨names.map (fun n => n ++ ".md"), files⟩).Nodup := by
  have he : getPostSlugs ⟨names.map (fun n => n ++ ".md"), files⟩ = names := by
    show (names.map (fun n => n ++ ".md")).map stripMd = names
    rw [List.map_map]
    have := List.map_congr_left
      (l := names) (f := stripMd ∘ fun n => n ++ ".md") (g := id)
      (fun n hn => stripMd_append n (h1 n hn))
    rw [this, List.map_id]
  exact ⟨he, by rw [he]; exact h2⟩

theorem getPostSlugs_wellformed_witness :
    getPostSlugs ⟨["hello", "world"].map (fun n => n ++ ".md"), fun _ => none⟩ =
      ["hello", "world"] ∧
    (getPostSlugs ⟨["hello", "world"].map (fun n => n ++ ".md"), fun _ => none⟩).Nodup :=
  getPostSlugs_wellformed ["hello", "world"] (fun _ => none) (by decide) (by decide)

/-- C3: when the stored file for a slug is missing or any read of it fails
(`fs.files` yields `none`, covering both cases exactly as the
`.catch(() => null)` in `getPostContent` does), `getPostMeta` resolves with
`undefined` (here `.ok none`) instead of rejecting. -/
theorem getPostMeta_read_failure_absent (fs : FS) (slug : String)
    (h : fs.files (postPath slug) = none) :
    getPostMeta fs slug = .ok none := by
  rw [getPostMeta_unfold, h]

theorem getPostMeta_read_failure_absent_witness :
    getPostMeta fsPartial "missing" = .ok none :=
  getPostMeta_read_failure_absent fsPartial "missing" (by decide)

/-- C4 (counterexample): elements of `getPostList` need not carry unique
slugs.  With entries `["a.md", "a"]` both map to slug `a`, the same file is
read twice, and the listing holds two objects with the same `slug` field. -/
theorem getPostList_duplicate_slugs :
    getPostList fsDup = .ok [[("slug", "a")], [("slug", "a")]] ∧
    ¬ (slugFields (getPostList fsDup)).Nodup := by
  exact ⟨by decide, by decide⟩

/-- C4 (amended): whenever the fan-out join succeeds, `getPostList` equals
`getPostMeta` mapped over `getPostSlugs` with the absent results filtered
out, preserving order; its length is the number of slugs minus the number of
absent ones, and every element arises from some slug of `getPostSlugs`.
Uniqueness of the `slug` fields does not hold (see the counterexample), nor
need the `slug` field equal the originating slug (front matter may override
it). -/
theorem getPostList_filtered_length (fs : FS) (ms : List (Option Obj))
    (h : metasOf fs = .ok ms) :
    getPostList fs = .ok (ms.filterMap id) ∧
    ms.length = (getPostSlugs fs).length ∧
    (ms.filterMap id).length =
      (getPostSlugs fs).length - ms.countP (fun o => o.isNone) ∧
    ∀ o ∈ ms.filterMap id, ∃ s ∈ getPostSlugs fs, getPostMeta fs s = .ok (some o) := by
  rw [metasOf_eq] at h
  refine ⟨?_, ?_, ?_, ?_⟩
  · rw [getPostList_eq, h]
  · exact metasAux_length _ _ _ h
  · have hl := metasAux_length _ _ _ h
    have hc := filterMap_id_add_countP ms
    omega
  · intro o ho
    rcases List.mem_filterMap.mp ho with ⟨a, ha, hao⟩
    have ha' : a = some o := hao
    rcases metasAux_mem _ _ _ h a ha with ⟨s, hs, he'⟩
    exact ⟨s, hs, ha' ▸ he'⟩

theorem getPostList_filtered_length_witness :
    getPostList fsPartial =
      .ok ([some [("slug", "a"), ("title", "a")], none].filterMap id) :=
  (getPostList_filtered_length fsPartial
    [some [("slug", "a"), ("title", "a")], none] (by decide)).1

/-- C5 (counterexample): the claim that for every slug `getPost` either
signals the `notFound` condition or returns metadata plus HTML is false.  In
`fsBad` the file for slug `bad` is present but its front-matter block is
malformed; `getPost` rejects with the raw, uncaught `YAMLException` — neither
the not-found signal nor a rendered result. -/
theorem getPost_malformed_frontmatter_escapes :
    getPost idDenote fsBad "bad" =
      .error (.raw "YAMLException: can not read a block mapping entry") := by
  decide

/-- C5 (amended): `getPost` signals the distinguishable `notFound` condition
— not an empty result and not an uncaught low-level error — whenever the file
is absent, and also when it reads as the empty string; when the file is
readable, non-empty and its front matter is accepted, it resolves with the
front-matter data together with the HTML produced by running the body through
the converter pipeline, for every denotation of the external stages.  When
the front matter is rejected, however, `getPost` rejects with the raw parse
error (see the counterexample). -/
theorem getPost_notFound_or_renders (denote : Stage → String → String)
    (fs : FS) (slug : String) :
    (fs.files (postPath slug) = none →
      getPost denote fs slug = .error .notFound) ∧
    (∀ c, fs.files (postPath slug) = some c → c.data = [] →
      getPost denote fs slug = .error .notFound) ∧
    (∀ c gm, fs.files (postPath slug) = some c → c.data ≠ [] →
      matter c = .ok gm →
      getPost denote fs slug =
        .ok ⟨getPostProcessor.process denote gm.content, gm.data⟩) ∧
    (∀ c e, fs.files (postPath slug) = some c → c.data ≠ [] →
      matter c = .error e →
      getPost denote fs slug = .error (.raw e)) := by
  refine ⟨?_, ?_, ?_, ?_⟩
  · intro h
    unfold getPost getPostM parseContentM getPostContentM readFileFS
    simp [h]
  · intro c hc he
    unfold getPost getPostM parseContentM getPostContentM readFileFS
    simp [hc, he]
  · intro c gm hc hne hm
    unfold getPost getPostM parseContentM getPostContentM readFileFS
    simp [hc, hne, hm, Except.map]
  · intro c e hc hne hm
    unfold getPost getPostM parseContentM getPostContentM readFileFS
    simp [hc, hne, hm, Except.map]

theorem getPost_notFound_or_renders_witness :
    getPost idDenote fsPartial "missing" = .error .notFound ∧
    getPost idDenote fsPartial "a" = .ok ⟨"hello", [("title", "a")]⟩ :=
  ⟨(getPost_notFound_or_renders idDenote fsPartial "missing").1 (by decide),
   (getPost_notFound_or_renders idDenote fsPartial "a").2.2.1
     "---\ntitle: a\n---\nhello" ⟨[("title", "a")], "hello"⟩
     (by decide) (by decide) (by decide)⟩

/-- C6: the Markdown-to-HTML conversion inside `getPost` is deterministic:
the pipeline is rebuilt from the same fixed stages on every call and consults
nothing but its input text, so two runs of `getPost` over the same store and
slug yield byte-identical HTML. -/
theorem markdown_pipeline_deterministic (denote : Stage → String → String)
    (fs : FS) (slug : String) (r1 r2 : PostContent)
    (h1 : getPost denote fs slug = .ok r1)
    (h2 : getPost denote fs slug = .ok r2) :
    r1.postHTML = r2.postHTML := by
  have h := h1.symm.trans h2
  injection h with h
  rw [h]

theorem markdown_pipeline_deterministic_witness :
    getPost idDenote fsPartial "a" = .ok ⟨"hello", [("title", "a")]⟩ ∧
    (PostContent.mk "hello" [("title", "a")]).postHTML =
      (PostContent.mk "hello" [("title", "a")]).postHTML :=
  ⟨by decide,
   markdown_pipeline_deterministic idDenote fsPartial "a" _ _
     (by decide) (by decide)⟩

/-- C7: the converter `getPost` wires up installs exactly the five plugins
`remark-parse`, `remark-frontmatter`, `remark-gfm`, `remark-rehype`,
`rehype-stringify`, in that order, and no others. -/
theorem getPost_pipeline_exact :
    getPostProcessor.stages =
      [Stage.remarkParse, Stage.remarkFrontmatter, Stage.remarkGfm,
       Stage.remarkRehype, Stage.rehypeStringify] := rfl

/-- C8: every repository operation only reads: for every store state, slug
and stage denotation, the store after `getPostSlugs`, `getPostContent`,
`getPostMeta`, `getPostList` and `getPost` is exactly the store before. -/
theorem post_repository_reads_only (denote : Stage → String → String)
    (fs : FS) (slug : String) :
    (getPostSlugsM fs).2 = fs ∧ (getPostContentM slug fs).2 = fs ∧
    (getPostMetaM slug fs).2 = fs ∧ (getPostListM fs).2 = fs ∧
    (getPostM denote slug fs).2 = fs :=
  ⟨rfl, rfl, rfl, getPostListM_snd fs, rfl⟩

/-- C9: because `{ slug, ...parsed.data }` spreads the front-matter entries
after the `slug` property, a front-matter key named `slug` overrides the
filename-derived argument: the returned object's `slug` field is the declared
front-matter value. -/
theorem getPostMeta_slug_override (fs : FS) (slug c v : String)
    (gm : GrayMatter) (hc : fs.files (postPath slug) = some c)
    (hne : c.data ≠ []) (hm : matter c = .ok gm)
    (hv : objGet gm.data "slug" = some v) :
    getPostMeta fs slug = .ok (some (mkMetaObj slug gm)) ∧
    objGet (mkMetaObj slug gm) "slug" = some v := by
  constructor
  · rw [getPostMeta_unfold, hc]
    show (if c.data = [] then Except.ok none
        else Except.map (fun gm => some (mkMetaObj slug gm)) (matter c)) = _
    rw [if_neg hne, hm]
    rfl
  · unfold mkMetaObj objGet
    rw [hv]

theorem getPostMeta_slug_override_witness :
    getPostMeta fsSlugKey "a" = .ok (some [("slug", "a"), ("slug", "other")]) ∧
    objGet [("slug", "a"), ("slug", "other")] "slug" = some "other" :=
  getPostMeta_slug_override fsSlugKey "a" "---\nslug: other\n---\nbody" "other"
    ⟨[("slug", "other")], "body"⟩ (by decide) (by decide) (by decide) (by decide)

/-- C10: `getPostContent` reads exactly the concatenation
`POSTS_FOLDER ++ "/" ++ slug ++ ".md"` with no validation of the slug, and a
slug with `..` segments addresses a file outside the posts directory: the
path built for `../outside` resolves to `/app/outside.md`, which does not lie
under `POSTS_FOLDER`. -/
theorem getPostContent_unsanitized_path (fs : FS) (slug : String) :
    getPostContent fs slug = fs.files (POSTS_FOLDER ++ "/" ++ slug ++ ".md") ∧
    normalizePath (postPath "../outside") = "/app/outside.md" ∧
    strHasPrefix (POSTS_FOLDER ++ "/") (normalizePath (postPath "../outside")) =
      false :=
  ⟨rfl, by decide, by decide⟩

end Blog
